import Mathlib

/- Verification of the sat-frontend repository: a shallow embedding of the
   job-list reconciliation (InfiniteJobList.tsx), the SSE job monitor
   (jobService.ts), the infinite-scroll pager (useInfiniteScroll.ts) and the
   HTTP client wrapper (apiClient.ts), together with proofs about the
   properties stated in the specification. -/

namespace SatFrontend

/-- Lexicographic order on char lists, modelling the JavaScript string
less-than operator, which compares strings code unit by code unit (the
strings handled here are ASCII, where code units and chars coincide). -/
def charListLt : List Char → List Char → Bool
  | _, [] => false
  | [], _ :: _ => true
  | a :: as, b :: bs => if a < b then true else if b < a then false else charListLt as bs

/-- JavaScript string comparison a < b. -/
def jsLt (a b : String) : Bool := charListLt a.data b.data

/-- Lexicographic less-or-equal on strings, as the specification words use it
for the inclusive date-range bounds. -/
def strLe (a b : String) : Prop := jsLt a b = true ∨ a = b

instance (a b : String) : Decidable (strLe a b) := by
  unfold strLe
  infer_instance

/-- JavaScript truthiness of a string value: false exactly for the empty
string. -/
def truthyS (s : String) : Bool := !(s == "")

/-- JavaScript truthiness of an optional string field: an absent value and the
empty string are both falsy. -/
def truthyO (o : Option String) : Bool := truthyS (o.getD "")

/-- Model of taking the first element of splitting a string at the character T:
the prefix before the first T, or the whole string when no T occurs. The
source uses this to extract the date component of an ISO timestamp. -/
def splitT (s : String) : String := ⟨s.data.takeWhile (fun c => c ≠ 'T')⟩

/-- The JobDto record of src/types (all fields are declared as required
strings in the TypeScript interface; the enum-typed fields are modelled as
strings carrying the enum literals). -/
structure JobDto where
  id : String
  taskId : String
  inputArtifactId : String
  baseName : String
  dirName : String
  tool : String
  options : String
  createdAt : String
  updatedAt : String
  alignArtifactId : String
  statArtifactId : String
  jobStatus : String
  message : String
  deriving DecidableEq, Repr

/-- The JobFilter record of jobService.ts: every field is optional. -/
structure JobFilter where
  inputArtifactId : Option String := none
  startDate : Option String := none
  endDate : Option String := none
  status : Option String := none
  tool : Option String := none
  deriving DecidableEq, Repr

/-- The DateRange record of DateRangePicker.tsx. -/
structure DateRange where
  startDate : Option String := none
  endDate : Option String := none
  deriving DecidableEq, Repr

/-- Translation of the toKey helper of InfiniteJobList.tsx: conversion of a
job identifier to a string key; identifiers are already strings here, so the
conversion is the identity. -/
def toKey (id : String) : String := id

/-- The jobDate local of matchesFilter: the date component of createdAt when
createdAt is truthy, the empty string otherwise. -/
def jobDateOf (job : JobDto) : String :=
  if truthyS job.createdAt then splitT job.createdAt else ""

/-- Translation of matchesFilter of InfiniteJobList.tsx, branch for branch:
reject on a set input-artifact filter that differs from the job field, then on
a set tool filter, then on a set status filter; when a start or end date is
set, compute the date component of createdAt (empty for a falsy createdAt)
and reject when it is below a set start date or above a set end date. -/
def matchesFilter (job : JobDto) (filters : JobFilter) (dateRange : DateRange) : Bool :=
  if truthyO filters.inputArtifactId && !(job.inputArtifactId == filters.inputArtifactId.getD "") then
    false
  else if truthyO filters.tool && !(job.tool == filters.tool.getD "") then
    false
  else if truthyO filters.status && !(job.jobStatus == filters.status.getD "") then
    false
  else if truthyO dateRange.startDate || truthyO dateRange.endDate then
    if truthyO dateRange.startDate && jsLt (jobDateOf job) (dateRange.startDate.getD "") then
      false
    else if truthyO dateRange.endDate && jsLt (dateRange.endDate.getD "") (jobDateOf job) then
      false
    else
      true
  else
    true

/-- The filter predicate as the specification words it: a conjunction of an
exact match on the source-file identifier when that filter is set, an exact
match on the tool when set, an exact match on the status when set, and
inclusive containment of the date component of createdAt (the substring
before T) in the set date-range bounds under lexicographic comparison. -/
def specMatchesFilter (job : JobDto) (filters : JobFilter) (dateRange : DateRange) : Prop :=
  (truthyO filters.inputArtifactId = true → job.inputArtifactId = filters.inputArtifactId.getD "") ∧
  (truthyO filters.tool = true → job.tool = filters.tool.getD "") ∧
  (truthyO filters.status = true → job.jobStatus = filters.status.getD "") ∧
  (truthyO dateRange.startDate = true → strLe (dateRange.startDate.getD "") (splitT job.createdAt)) ∧
  (truthyO dateRange.endDate = true → strLe (splitT job.createdAt) (dateRange.endDate.getD ""))

/-- The onmessage handler of JobMonitor in jobService.ts, as a function of the
JSON parse result of the raw message body (JSON.parse is a platform
primitive; a body that is not valid JSON is the none case, which the handler
catches and drops). The result is the job passed to the onMessage callback,
or none when the message is dropped: a parse failure, a falsy id, or a taskId
equal to the KEEP_ALIVE marker. -/
def handleSseMessage (parsed : Option JobDto) : Option JobDto :=
  match parsed with
  | none => none
  | some job =>
    if truthyS job.id && (!truthyS job.taskId || !(job.taskId == "KEEP_ALIVE")) then
      some job
    else
      none

/-- Lookup in the realtime-jobs map, modelled as its association list in
insertion order (a JavaScript Map preserves insertion order; set on an
existing key keeps its position). -/
def mapGet (m : List (String × JobDto)) (k : String) : Option JobDto :=
  (m.find? (fun p => p.1 == k)).map (fun p => p.2)

/-- Map.set on the association-list model: replace the entry in place when
the key is present, append a new entry otherwise. -/
def mapSet (m : List (String × JobDto)) (k : String) (v : JobDto) : List (String × JobDto) :=
  if m.any (fun p => p.1 == k) then
    m.map (fun p => if p.1 == k then (k, v) else p)
  else
    m ++ [(k, v)]

/-- The setRealtimeJobs updater run by the SSE onMessage callback of
InfiniteJobList.tsx: normalize the incoming id to a string key, copy the
incoming job (complete replacement, no merge with the existing entry), and
store it when there is no existing entry, or the incoming updatedAt is
falsy, or the existing updatedAt is falsy, or the incoming updatedAt is
greater or equal under string comparison; otherwise return the map
unchanged, discarding the incoming job as stale. -/
def sseUpdate (prev : List (String × JobDto)) (updatedJob : JobDto) : List (String × JobDto) :=
  match mapGet prev (toKey updatedJob.id) with
  | none => mapSet prev (toKey updatedJob.id) updatedJob
  | some existing =>
    if !truthyS updatedJob.updatedAt || !truthyS existing.updatedAt ||
        !(jsLt updatedJob.updatedAt existing.updatedAt) then
      mapSet prev (toKey updatedJob.id) updatedJob
    else
      prev

/-- The acceptance condition as the claim words it: the map has no entry at
the key, or the incoming updatedAt is absent or empty, or the existing
updatedAt is absent or empty, or the incoming updatedAt is at least the
existing one under string comparison. -/
def sseAccepts (prev : List (String × JobDto)) (u : JobDto) : Prop :=
  match mapGet prev (toKey u.id) with
  | none => True
  | some existing =>
    u.updatedAt = "" ∨ existing.updatedAt = "" ∨ strLe existing.updatedAt u.updatedAt

instance (prev : List (String × JobDto)) (u : JobDto) : Decidable (sseAccepts prev u) := by
  unfold sseAccepts
  cases mapGet prev (toKey u.id) with
  | none => exact isTrue trivial
  | some existing => exact inferInstance

/-- The maxReconnectAttempts constant of JobMonitor. -/
def maxReconnectAttempts : Nat := 3

/-- Observable connection state of a JobMonitor: the reconnect attempt
counter, whether a reconnect timer is pending, and whether an event source
object is currently held. -/
structure MonitorState where
  reconnectAttempts : Nat
  timerSet : Bool
  streamOpen : Bool
  deriving DecidableEq, Repr

/-- JobMonitor.disconnect: clear any pending reconnect timer, close and drop
the event source, and reset the attempt counter to zero. -/
def monitorDisconnect (s : MonitorState) : MonitorState :=
  { s with reconnectAttempts := 0, timerSet := false, streamOpen := false }

/-- JobMonitor.scheduleReconnect: give up once the attempt counter has
reached maxReconnectAttempts, otherwise increment the counter and set the
reconnect timer. -/
def monitorScheduleReconnect (s : MonitorState) : MonitorState :=
  if s.reconnectAttempts ≥ maxReconnectAttempts then s
  else { s with reconnectAttempts := s.reconnectAttempts + 1, timerSet := true }

/-- JobMonitor.connect: open a new event source (the attempt counter is only
reset later, by the onopen handler). -/
def monitorConnect (s : MonitorState) : MonitorState :=
  { s with streamOpen := true }

/-- The onerror handler of JobMonitor.connect: the handler calls disconnect
and then scheduleReconnect. -/
def monitorOnError (s : MonitorState) : MonitorState :=
  monitorScheduleReconnect (monitorDisconnect s)

/-- The onopen handler of JobMonitor.connect: reset the attempt counter. -/
def monitorOnOpen (s : MonitorState) : MonitorState :=
  { s with reconnectAttempts := 0, streamOpen := true }

/-- The pending reconnect timer firing: the timer is consumed and connect
runs. -/
def monitorTimerFire (s : MonitorState) : MonitorState :=
  if s.timerSet then monitorConnect { s with timerSet := false } else s

/-- JobMonitor.reconnect: disconnect then connect. -/
def monitorManualReconnect (s : MonitorState) : MonitorState :=
  monitorConnect (monitorDisconnect s)

/-- State after the JobMonitor constructor ran its initial connect. -/
def initialMonitorState : MonitorState :=
  monitorConnect { reconnectAttempts := 0, timerSet := false, streamOpen := false }

/-- One full failure round: a stream error followed by the scheduled
reconnect timer firing. -/
def monitorErrorCycle (s : MonitorState) : MonitorState :=
  monitorTimerFire (monitorOnError s)

/-- The sort metadata of a Spring pageable, from the PagedResponse interface
of src/types. -/
structure SortInfo where
  sorted : Bool
  ascending : Bool
  deriving DecidableEq, Repr

/-- The pageable metadata of a PagedResponse. -/
structure Pageable where
  pageNumber : Nat
  pageSize : Nat
  sort : SortInfo
  deriving DecidableEq, Repr

/-- The PagedResponse interface of src/types. -/
structure PagedResponse (T : Type) where
  content : List T
  pageable : Pageable
  totalElements : Nat
  totalPages : Nat
  last : Bool
  deriving DecidableEq, Repr

/-- The state held by useInfiniteScroll: the accumulated items, the next page
index, the loading flag (covering the isLoadingRef guard, which mirrors it
within a single loadMore run), the error message and the hasMore flag. -/
structure ScrollState (T : Type) where
  items : List T
  page : Nat
  loading : Bool
  error : Option String
  hasMore : Bool
  deriving DecidableEq, Repr

/-- The loadMore callback of useInfiniteScroll, as a function of the awaited
fetcher outcome: return unchanged when already loading or when hasMore is
false; on a fetched page append its content, flip hasMore to the negation of
the last flag and advance the page counter; on a fetcher throw record only
the error message. The final state is observed after the finally block
cleared the loading flags. -/
def loadMore {T : Type} (st : ScrollState T) (fetched : Except String (PagedResponse T)) :
    ScrollState T :=
  if st.loading || !st.hasMore then st
  else
    match fetched with
    | Except.ok response =>
      { items := st.items ++ response.content, page := st.page + 1, loading := false,
        error := none, hasMore := !response.last }
    | Except.error msg =>
      { st with loading := false, error := some msg }

/-- The object spread of a base job with a live job, as displayJobs computes
merged entries. The TypeScript interface declares every JobDto field as
required, so the spread of the complete live record overlays every field of
the base job; it is written field by field to mirror the overlay. -/
def spreadMerge (job live : JobDto) : JobDto :=
  { id := live.id, taskId := live.taskId, inputArtifactId := live.inputArtifactId,
    baseName := live.baseName, dirName := live.dirName, tool := live.tool,
    options := live.options, createdAt := live.createdAt, updatedAt := live.updatedAt,
    alignArtifactId := live.alignArtifactId, statArtifactId := live.statArtifactId,
    jobStatus := live.jobStatus, message := live.message }

/-- The creation timestamp the sort comparator of displayJobs reads: the
Date value of createdAt when createdAt is truthy, otherwise the Date value
of 0, which is epoch 0. Date parsing is a platform primitive, so it enters
the model as the getTime parameter. -/
def timeOf (getTime : String → Int) (job : JobDto) : Int :=
  if truthyS job.createdAt then getTime job.createdAt else 0

/-- Insertion of a job into a list sorted by descending time: the job goes
in front of the first strictly older element, after every element at least
as recent. -/
def insertDesc (t : JobDto → Int) (a : JobDto) : List JobDto → List JobDto
  | [] => [a]
  | b :: l => if t b < t a then a :: b :: l else b :: insertDesc t a l

/-- Model of the array sort with the comparator on Date values of createdAt
(descending): a stable sort into descending time order, as the ECMAScript
sort is specified to be stable. -/
def jsSortDesc (t : JobDto → Int) (l : List JobDto) : List JobDto :=
  l.foldl (fun acc a => insertDesc t a acc) []

/-- The existingJobs step of displayJobs in InfiniteJobList.tsx: each job of
the paged base list, with the live entry at its key spread over it when the
realtime map has one. -/
def existingJobsOf (jobs : List JobDto) (L : List (String × JobDto)) : List JobDto :=
  jobs.map (fun job =>
    match mapGet L (toKey job.id) with
    | some live => spreadMerge job live
    | none => job)

/-- The newJobs step of displayJobs: the realtime entries whose key does not
occur in the base list and which pass the current filter, in map order. -/
def newJobsOf (jobs : List JobDto) (L : List (String × JobDto))
    (filters : JobFilter) (dateRange : DateRange) : List JobDto :=
  (L.filter (fun p =>
    !(jobs.any (fun job => toKey job.id == p.1)) &&
      matchesFilter p.2 filters dateRange)).map (fun p => p.2)

/-- One step of the uniqueJobs de-duplication loop of displayJobs: store the
job under its key when the accumulator map has no entry there, or when both
updatedAt fields are truthy and the incoming one is at least the stored one
under string comparison. -/
def dedupStep (m : List (String × JobDto)) (job : JobDto) : List (String × JobDto) :=
  match mapGet m (toKey job.id) with
  | none => mapSet m (toKey job.id) job
  | some existing =>
    if truthyS job.updatedAt && truthyS existing.updatedAt &&
        !(jsLt job.updatedAt existing.updatedAt) then
      mapSet m (toKey job.id) job
    else
      m

/-- The uniqueJobs de-duplication of displayJobs: fold the combined list into
a map keyed by the string key and read the values back in insertion order. -/
def dedupByKey (allJobs : List JobDto) : List JobDto :=
  (allJobs.foldl dedupStep []).map (fun p => p.2)

/-- displayJobs of InfiniteJobList.tsx: the new realtime-only jobs in front
of the merged base list, de-duplicated by key, sorted by descending creation
time. -/
def displayJobs (getTime : String → Int) (jobs : List JobDto)
    (L : List (String × JobDto)) (filters : JobFilter) (dateRange : DateRange) :
    List JobDto :=
  jsSortDesc (timeOf getTime)
    (dedupByKey (newJobsOf jobs L filters dateRange ++ existingJobsOf jobs L))

/-- The reference overlay of the specification: for every job of the base
list, overlay the fields of the live entry at its key when present, live
fields winning. -/
def overlayBaseSpec (jobs : List JobDto) (L : List (String × JobDto)) : List JobDto :=
  jobs.map (fun job =>
    match mapGet L (toKey job.id) with
    | some live => spreadMerge job live
    | none => job)

/-- The reference live-only selection of the specification: every job whose
key is present only in the live map and which satisfies the active filter
predicate. -/
def liveOnlySpec (jobs : List JobDto) (L : List (String × JobDto))
    (filters : JobFilter) (dateRange : DateRange) : List JobDto :=
  (L.filter (fun p =>
    (decide (∀ j ∈ jobs, ¬ toKey j.id = p.1)) &&
      matchesFilter p.2 filters dateRange)).map (fun p => p.2)

/-- De-duplication by string key as the specification words it, the later
entry winning ties: keep the last occurrence of every key. -/
def keepLastByKey : List JobDto → List JobDto
  | [] => []
  | a :: r =>
    if r.any (fun b => toKey b.id == toKey a.id) then keepLastByKey r
    else a :: keepLastByKey r

/-- The reference merge of the specification, before sorting: the overlaid
base list, plus the filtered live-only jobs, de-duplicated by key. -/
def refMergeList (jobs : List JobDto) (L : List (String × JobDto))
    (filters : JobFilter) (dateRange : DateRange) : List JobDto :=
  keepLastByKey (overlayBaseSpec jobs L ++ liveOnlySpec jobs L filters dateRange)

/-- The ApiError interface of src/types. -/
structure ApiError where
  timestamp : String
  status : Nat
  error : String
  message : String
  path : String
  deriving DecidableEq, Repr

/-- Outcome of the awaited fetch call inside ApiClient.request, covering the
cases the code distinguishes: the fetch promise rejecting; a response with ok
set, with its content type and, when the content type is JSON, whether the
body parses; a response with ok unset, with its status data and the outcome
of parsing its body as an ApiError. -/
inductive FetchOutcome where
  | networkFailure (message : String)
  | okResponse (jsonContentType : Bool) (bodyParses : Bool)
  | errorResponse (status : Nat) (statusText : String) (body : Option ApiError)
  deriving DecidableEq, Repr

/-- What a rejected request promise carries: an ApiClientError wrapping an
ApiError record, or the bare JSON SyntaxError rejection that escapes request
from the ok path, where the promise of response.json is returned from inside
the try block without await, so its rejection bypasses the catch. -/
inductive RequestError where
  | apiClientError (e : ApiError)
  | jsonSyntaxFailure
  deriving DecidableEq, Repr

/-- What a fulfilled request promise carries: a parsed JSON value, or the raw
response object for non-JSON content. -/
inductive RequestValue where
  | jsonValue
  | rawResponse
  deriving DecidableEq, Repr

/-- ApiClient.request of apiClient.ts, as a function of the fetch outcome and
of the current timestamp used for synthesized ApiError records. On an ok
response, a JSON content type whose body parses yields the parsed value, and
a failing body parse escapes as the bare SyntaxError (the un-awaited
response.json rejection); a non-JSON content type yields the raw response.
On a non-ok response the parsed error body, or a default ApiError synthesized
from the HTTP status when the body is not JSON, is wrapped in an
ApiClientError and thrown. A fetch rejection is caught and wrapped in an
ApiClientError with status 0. -/
def request (now endpoint : String) (outcome : FetchOutcome) :
    Except RequestError RequestValue :=
  match outcome with
  | FetchOutcome.okResponse true true => Except.ok RequestValue.jsonValue
  | FetchOutcome.okResponse true false => Except.error RequestError.jsonSyntaxFailure
  | FetchOutcome.okResponse false _ => Except.ok RequestValue.rawResponse
  | FetchOutcome.errorResponse st stx body =>
    let errorData : ApiError :=
      match body with
      | some e => e
      | none =>
        { timestamp := now, status := st, error := stx,
          message := "HTTP " ++ toString st ++ ": " ++ stx, path := endpoint }
    Except.error (RequestError.apiClientError errorData)
  | FetchOutcome.networkFailure msg =>
    Except.error (RequestError.apiClientError
      { timestamp := now, status := 0, error := "Network Error", message := msg,
        path := endpoint })

/-- Whether a request outcome is a rejection. -/
def isFailure : Except RequestError RequestValue → Bool
  | Except.error _ => true
  | Except.ok _ => false

/-- Whether a request outcome is a rejection carrying an ApiClientError. -/
def isApiClientFailure : Except RequestError RequestValue → Bool
  | Except.error (RequestError.apiClientError _) => true
  | _ => false

instance (job : JobDto) (f : JobFilter) (d : DateRange) :
    Decidable (specMatchesFilter job f d) := by
  unfold specMatchesFilter
  infer_instance

/-- A sample job used to instantiate proved theorems on concrete inputs. -/
def sampleJobA : JobDto :=
  { id := "1", taskId := "task-1", inputArtifactId := "7", baseName := "seqs",
    dirName := "dir", tool := "mafft", options := "", createdAt := "2024-05-02T10:00:00",
    updatedAt := "2024-05-02T10:05:00", alignArtifactId := "", statArtifactId := "",
    jobStatus := "SUCCESS", message := "" }

/-- A second sample job with a distinct identifier and earlier timestamps. -/
def sampleJobB : JobDto :=
  { id := "2", taskId := "task-2", inputArtifactId := "8", baseName := "reads",
    dirName := "dir", tool := "vsearch", options := "", createdAt := "2024-05-01T09:00:00",
    updatedAt := "2024-05-01T09:10:00", alignArtifactId := "", statArtifactId := "",
    jobStatus := "RUNNING", message := "" }

/-- A sample job with an empty createdAt field. -/
def sampleJobNoDate : JobDto :=
  { id := "3", taskId := "task-3", inputArtifactId := "9", baseName := "contigs",
    dirName := "dir", tool := "uclust", options := "", createdAt := "",
    updatedAt := "", alignArtifactId := "", statArtifactId := "",
    jobStatus := "PENDING", message := "" }

/-- A stale variant of sampleJobA: the same id, a strictly older updatedAt. -/
def sampleStaleJob : JobDto :=
  { sampleJobA with updatedAt := "2024-05-01T00:00:00", jobStatus := "RUNNING" }

/-- A sample fetched page used to instantiate the pager theorems. -/
def samplePage : PagedResponse Nat :=
  { content := [3, 4],
    pageable := { pageNumber := 1, pageSize := 2, sort := { sorted := true, ascending := false } },
    totalElements := 4, totalPages := 2, last := true }

/-- A sample pager state used to instantiate the pager theorems. -/
def sampleScrollState : ScrollState Nat :=
  { items := [1, 2], page := 1, loading := false, error := none, hasMore := true }

/-- A concrete stand-in for the platform date parser, used to instantiate the
reconciliation theorem on concrete inputs. -/
def sampleGetTime (s : String) : Int := s.data.length

end SatFrontend

namespace SatFrontend

theorem charListLt_nil (as : List Char) : charListLt as [] = false := by
  cases as <;> rfl

theorem charListLt_false_iff (as bs : List Char) :
    charListLt as bs = false ↔ (charListLt bs as = true ∨ as = bs) := by
  induction as generalizing bs with
  | nil =>
    cases bs with
    | nil => simp [charListLt]
    | cons b bs => simp [charListLt, charListLt_nil]
  | cons a as ih =>
    cases bs with
    | nil => simp [charListLt, charListLt_nil]
    | cons b bs =>
      rcases lt_trichotomy a b with hab | hab | hab
      · simp [charListLt, hab, not_lt_of_gt hab, ne_of_gt hab, (ne_of_gt hab).symm]
      · subst hab
        simp [charListLt, lt_irrefl, ih bs]
      · simp [charListLt, hab, not_lt_of_gt hab, ne_of_gt hab, (ne_of_gt hab).symm]

theorem jsLt_false_iff (a b : String) :
    jsLt a b = false ↔ (jsLt b a = true ∨ a = b) := by
  unfold jsLt
  rw [charListLt_false_iff]
  constructor
  · rintro (h | h)
    · exact Or.inl h
    · exact Or.inr (String.ext h)
  · rintro (h | h)
    · exact Or.inl h
    · exact Or.inr (by rw [h])

theorem strLe_iff_not_jsLt (a b : String) : strLe a b ↔ jsLt b a = false := by
  rw [jsLt_false_iff]
  unfold strLe
  constructor
  · rintro (h | h)
    · exact Or.inl h
    · exact Or.inr h.symm
  · rintro (h | h)
    · exact Or.inl h
    · exact Or.inr h.symm

theorem splitT_empty : splitT "" = "" := rfl

theorem jsLt_to_empty (s : String) : jsLt s "" = false := charListLt_nil s.data

theorem jsLt_empty_left (s : String) (h : s ≠ "") : jsLt "" s = true := by
  unfold jsLt
  cases hs : s.data with
  | nil => exact absurd (String.ext (by rw [hs])) h
  | cons c cs => rfl

theorem truthyO_true_iff (o : Option String) : truthyO o = true ↔ o.getD "" ≠ "" := by
  simp [truthyO, truthyS]

theorem jobDateOf_eq (job : JobDto) : jobDateOf job = splitT job.createdAt := by
  unfold jobDateOf
  by_cases h : job.createdAt = ""
  · rw [h]; simp [truthyS, splitT_empty]
  · simp [truthyS, h]

theorem guard_iff (c rest : Bool) (P Q : Prop) (hc : c = false ↔ P) (hr : rest = true ↔ Q) :
    (if c then false else rest) = true ↔ (P ∧ Q) := by
  cases c <;> simp_all

theorem and_not_beq_false_iff (t : Bool) (a b : String) :
    (t && !(a == b)) = false ↔ (t = true → a = b) := by
  cases t <;> simp [beq_iff_eq]

theorem date_branch_iff (s e : Option String) (jd : String) :
    (if truthyO s || truthyO e then
      if truthyO s && jsLt jd (s.getD "") then false
      else if truthyO e && jsLt (e.getD "") jd then false
      else true
    else true) = true
    ↔ ((truthyO s = true → strLe (s.getD "") jd) ∧ (truthyO e = true → strLe jd (e.getD ""))) := by
  by_cases hs : truthyO s = true <;> by_cases he : truthyO e = true <;>
  by_cases h4 : jsLt jd (s.getD "") = true <;> by_cases h5 : jsLt (e.getD "") jd = true <;>
  simp [hs, he, h4, h5, strLe_iff_not_jsLt, Bool.not_eq_true] at *

theorem matchesFilter_eq_true_iff (job : JobDto) (f : JobFilter) (d : DateRange) :
    matchesFilter job f d = true ↔ specMatchesFilter job f d := by
  unfold matchesFilter specMatchesFilter
  rw [jobDateOf_eq]
  refine guard_iff _ _ _ _ (and_not_beq_false_iff _ _ _) ?_
  refine guard_iff _ _ _ _ (and_not_beq_false_iff _ _ _) ?_
  refine guard_iff _ _ _ _ (and_not_beq_false_iff _ _ _) ?_
  exact date_branch_iff _ _ _

/-- Claim C3: for every job, filter set and date range, matchesFilter returns true
if and only if the conjunction holds of the exact field matches for each set
filter component and inclusive lexicographic containment of the date component
of createdAt (the substring before T) in the set date-range bounds. -/
theorem claim_C3_matchesFilter_conjunction (job : JobDto) (f : JobFilter) (d : DateRange) :
    matchesFilter job f d = true ↔ specMatchesFilter job f d :=
  matchesFilter_eq_true_iff job f d

/-- Witness for C3: the equivalence applied at a concrete job and filter. -/
theorem claim_C3_witness :
    matchesFilter sampleJobA
      { inputArtifactId := some "7", tool := some "mafft" }
      { startDate := some "2024-05-01", endDate := some "2024-05-03" } = true :=
  (claim_C3_matchesFilter_conjunction sampleJobA
    { inputArtifactId := some "7", tool := some "mafft" }
    { startDate := some "2024-05-01", endDate := some "2024-05-03" }).mpr (by decide)

/-- Claim C9: the empty filter object together with the empty date range is the
identity of the filter predicate: matchesFilter accepts every job. -/
theorem claim_C9_empty_filter_identity (job : JobDto) :
    matchesFilter job {} {} = true := by
  simp [matchesFilter, truthyO, truthyS]

/-- Claim C10: a job with empty createdAt has the empty string as its date
component, so a set start date always rejects it, while with no start date
set, a set end date accepts it whenever the remaining set filter components
match. -/
theorem claim_C10_empty_createdAt_asymmetry (job : JobDto) (f : JobFilter) (d : DateRange)
    (hc : job.createdAt = "") :
    (truthyO d.startDate = true → matchesFilter job f d = false) ∧
    (truthyO d.startDate = false → truthyO d.endDate = true →
      (truthyO f.inputArtifactId = true → job.inputArtifactId = f.inputArtifactId.getD "") →
      (truthyO f.tool = true → job.tool = f.tool.getD "") →
      (truthyO f.status = true → job.jobStatus = f.status.getD "") →
      matchesFilter job f d = true) := by
  constructor
  · intro hs
    cases hmf : matchesFilter job f d with
    | false => rfl
    | true =>
      have hspec := (matchesFilter_eq_true_iff job f d).mp hmf
      have h4 := hspec.2.2.2.1 hs
      rw [hc, splitT_empty] at h4
      rw [strLe_iff_not_jsLt] at h4
      rw [jsLt_empty_left _ ((truthyO_true_iff d.startDate).mp hs)] at h4
      exact absurd h4 (by simp)
  · intro hs he hi ht hst
    refine (matchesFilter_eq_true_iff job f d).mpr ⟨hi, ht, hst, ?_, ?_⟩
    · intro hs2
      exact absurd hs2 (by rw [hs]; simp)
    · intro _
      rw [hc, splitT_empty, strLe_iff_not_jsLt]
      exact jsLt_to_empty _

/-- Witness for C10: the asymmetry evaluated at a concrete dateless job, with
a start-date range on the rejecting side and an end-date range on the
accepting side. -/
theorem claim_C10_witness :
    matchesFilter sampleJobNoDate {} { startDate := some "2024-01-01" } = false ∧
    matchesFilter sampleJobNoDate {} { endDate := some "2024-01-01" } = true :=
  ⟨(claim_C10_empty_createdAt_asymmetry sampleJobNoDate {} { startDate := some "2024-01-01" }
      rfl).1 (by decide),
   (claim_C10_empty_createdAt_asymmetry sampleJobNoDate {} { endDate := some "2024-01-01" }
      rfl).2 (by decide) (by decide) (by decide) (by decide) (by decide)⟩

theorem strLe_refl (a : String) : strLe a a := Or.inr rfl

theorem find?_replace_self (m : List (String × JobDto)) (k : String) (v : JobDto)
    (h : m.any (fun p => p.1 == k) = true) :
    (m.map (fun p => if p.1 == k then (k, v) else p)).find? (fun p => p.1 == k) =
      some (k, v) := by
  induction m with
  | nil => simp at h
  | cons p m ih =>
    by_cases hp : (p.1 == k) = true
    · simp only [List.map_cons, hp, if_true]
      exact List.find?_cons_of_pos _ (by simp)
    · have h2 : m.any (fun p => p.1 == k) = true := by
        simp only [List.any_cons, Bool.or_eq_true] at h
        exact h.resolve_left hp
      simp only [List.map_cons, hp, if_false, Bool.false_eq_true]
      rw [List.find?_cons_of_neg _ (by simp [hp])]
      exact ih h2

theorem find?_not_found (m : List (String × JobDto)) (k : String)
    (h : ¬ m.any (fun p => p.1 == k) = true) :
    m.find? (fun p => p.1 == k) = none := by
  rw [List.find?_eq_none]
  intro x hx
  rw [List.any_eq_true] at h
  exact fun hpx => h ⟨x, hx, hpx⟩

theorem mapGet_mapSet_self (m : List (String × JobDto)) (k : String) (v : JobDto) :
    mapGet (mapSet m k v) k = some v := by
  unfold mapGet mapSet
  by_cases h : m.any (fun p => p.1 == k) = true
  · rw [if_pos h, find?_replace_self m k v h]
    rfl
  · rw [if_neg h, List.find?_append, find?_not_found m k h, Option.none_or]
    simp [List.find?]

theorem mapGet_mapSet_ne (m : List (String × JobDto)) (k0 : String) (v : JobDto)
    (k : String) (hk : k ≠ k0) :
    mapGet (mapSet m k0 v) k = mapGet m k := by
  have hbeq : (k0 == k) = false := by
    simp only [beq_eq_false_iff_ne, ne_eq]
    exact fun h => hk h.symm
  unfold mapGet mapSet
  by_cases h : m.any (fun p => p.1 == k0) = true
  · rw [if_pos h]
    clear h
    induction m with
    | nil => rfl
    | cons p m ih =>
      by_cases hp : (p.1 == k0) = true
      · have hpk : (p.1 == k) = false := by
          rw [eq_of_beq hp]
          exact hbeq
        simp only [List.map_cons, hp, if_true, List.find?, hbeq, hpk]
        exact ih
      · have hp2 : (p.1 == k0) = false := by simpa using hp
        simp only [List.map_cons, hp2, if_false, Bool.false_eq_true]
        by_cases hq : (p.1 == k) = true
        · simp only [List.find?, hq]
        · have hq2 : (p.1 == k) = false := by simpa using hq
          simp only [List.find?, hq2]
          exact ih
  · rw [if_neg h, List.find?_append]
    have hlast : ([(k0, v)].find? (fun p => p.1 == k)) = none := by
      simp [List.find?, hbeq]
    rw [hlast, Option.or_none]

theorem sseCond_iff (u e : JobDto) :
    (!truthyS u.updatedAt || !truthyS e.updatedAt ||
      !(jsLt u.updatedAt e.updatedAt)) = true ↔
    (u.updatedAt = "" ∨ e.updatedAt = "" ∨ strLe e.updatedAt u.updatedAt) := by
  simp [truthyS, Bool.or_eq_true, Bool.not_eq_true', strLe_iff_not_jsLt, or_assoc]

theorem sseAccepts_none (prev : List (String × JobDto)) (u : JobDto)
    (h : mapGet prev (toKey u.id) = none) : sseAccepts prev u := by
  unfold sseAccepts
  rw [h]
  trivial

theorem sseAccepts_some_iff (prev : List (String × JobDto)) (u e : JobDto)
    (h : mapGet prev (toKey u.id) = some e) :
    sseAccepts prev u ↔
      (u.updatedAt = "" ∨ e.updatedAt = "" ∨ strLe e.updatedAt u.updatedAt) := by
  unfold sseAccepts
  rw [h]

theorem sseUpdate_none (prev : List (String × JobDto)) (u : JobDto)
    (h : mapGet prev (toKey u.id) = none) :
    sseUpdate prev u = mapSet prev (toKey u.id) u := by
  unfold sseUpdate
  rw [h]

theorem sseUpdate_some (prev : List (String × JobDto)) (u e : JobDto)
    (h : mapGet prev (toKey u.id) = some e) :
    sseUpdate prev u =
      if (!truthyS u.updatedAt || !truthyS e.updatedAt ||
          !(jsLt u.updatedAt e.updatedAt)) = true then
        mapSet prev (toKey u.id) u
      else prev := by
  unfold sseUpdate
  rw [h]

theorem sseUpdate_eq (prev : List (String × JobDto)) (u : JobDto) :
    sseUpdate prev u = if sseAccepts prev u then mapSet prev (toKey u.id) u else prev := by
  cases h : mapGet prev (toKey u.id) with
  | none =>
    rw [if_pos (sseAccepts_none prev u h), sseUpdate_none prev u h]
  | some e =>
    rw [sseUpdate_some prev u e h]
    by_cases hc : (!truthyS u.updatedAt || !truthyS e.updatedAt ||
        !(jsLt u.updatedAt e.updatedAt)) = true
    · rw [if_pos hc, if_pos ((sseAccepts_some_iff prev u e h).mpr ((sseCond_iff u e).mp hc))]
    · have hna : ¬ sseAccepts prev u := fun ha =>
        hc ((sseCond_iff u e).mpr ((sseAccepts_some_iff prev u e h).mp ha))
      rw [if_neg hc, if_neg hna]

/-- Claim C2: the SSE update handler stores the incoming job at its string key by
complete replacement exactly when the acceptance condition of the claim
holds, and otherwise returns the map unchanged; in the rejected case the
existing entry differs from the incoming job, so the incoming job really is
discarded. -/
theorem claim_C2_sse_staleness (prev : List (String × JobDto)) (u : JobDto) :
    (sseUpdate prev u = if sseAccepts prev u then mapSet prev (toKey u.id) u else prev) ∧
    (¬ sseAccepts prev u → ∀ e, mapGet prev (toKey u.id) = some e → e ≠ u) := by
  refine ⟨sseUpdate_eq prev u, ?_⟩
  intro hna e he heq
  apply hna
  refine (sseAccepts_some_iff prev u e he).mpr (Or.inr (Or.inr ?_))
  rw [heq]
  exact strLe_refl _

/-- Witness for C2: a stale incoming update, with older updatedAt than the
stored entry, leaves the map unchanged. -/
theorem claim_C2_witness :
    sseUpdate [("1", sampleJobA)] sampleStaleJob = [("1", sampleJobA)] ∧
    sampleJobA ≠ sampleStaleJob := by
  constructor
  · rw [(claim_C2_sse_staleness [("1", sampleJobA)] sampleStaleJob).1,
      if_neg (by decide)]
  · exact (claim_C2_sse_staleness [("1", sampleJobA)] sampleStaleJob).2 (by decide)
      sampleJobA (by decide)

/-- Claim C8: processing one SSE update changes at most the entry at the key of
the incoming job: every other key maps to the same entry before and after. -/
theorem claim_C8_frame (prev : List (String × JobDto)) (u : JobDto) (k : String)
    (hk : k ≠ toKey u.id) :
    mapGet (sseUpdate prev u) k = mapGet prev k := by
  rw [sseUpdate_eq]
  by_cases ha : sseAccepts prev u
  · rw [if_pos ha, mapGet_mapSet_ne _ _ _ _ hk]
  · rw [if_neg ha]

/-- Witness for C8: updating the map with a job keyed 2 leaves the entry at
key 1 untouched. -/
theorem claim_C8_witness :
    mapGet (sseUpdate [("1", sampleJobA)] sampleJobB) "1" =
      mapGet [("1", sampleJobA)] "1" :=
  claim_C8_frame [("1", sampleJobA)] sampleJobB "1" (by decide)

/-- Claim C5: the onMessage callback receives a job exactly when the raw message
parses, the parsed id is truthy, and the taskId is absent, empty or different
from the KEEP_ALIVE marker; every other message is dropped. -/
theorem claim_C5_sse_message_filter (parsed : Option JobDto) (job : JobDto) :
    handleSseMessage parsed = some job ↔
    (parsed = some job ∧ job.id ≠ "" ∧ (job.taskId = "" ∨ job.taskId ≠ "KEEP_ALIVE")) := by
  cases parsed with
  | none => simp [handleSseMessage]
  | some j =>
    by_cases h1 : j.id = "" <;> by_cases h2 : j.taskId = "" <;>
    by_cases h3 : j.taskId = "KEEP_ALIVE" <;>
      simp_all [handleSseMessage, truthyS] <;>
      (intro h; subst h) <;> simp_all

/-- Witness for C5: a job with a real task id passes the filter. -/
theorem claim_C5_witness : handleSseMessage (some sampleJobA) = some sampleJobA :=
  (claim_C5_sse_message_filter (some sampleJobA) sampleJobA).mpr ⟨rfl, by decide, by decide⟩

/-- Claim C4, evaluated at the failing trace: the claim (and the specification) say
that across consecutive stream failures at most maxReconnectAttempts = 3
reconnect attempts are made before the monitor gives up. In the code the
onerror handler calls disconnect, which resets the attempt counter to zero,
before scheduleReconnect, so the guard against exceeding the bound never
fires: after three full error-and-reconnect rounds, a fourth consecutive
stream error still schedules a reconnect, with the counter back at one. -/
theorem claim_C4_code_bug_eval :
    (monitorOnError (monitorErrorCycle (monitorErrorCycle
      (monitorErrorCycle initialMonitorState)))).timerSet = true ∧
    (monitorOnError (monitorErrorCycle (monitorErrorCycle
      (monitorErrorCycle initialMonitorState)))).reconnectAttempts = 1 := by
  exact ⟨rfl, rfl⟩

/-- Claim C6: a loadMore run from a non-loading state with hasMore set appends the
fetched page content in order, advances the page counter by one and sets
hasMore to the negation of the last flag; a fetcher throw leaves items, page
and hasMore unchanged and records only the error message. -/
theorem claim_C6_loadMore_behavior {T : Type} (st : ScrollState T)
    (hl : st.loading = false) (hm : st.hasMore = true) :
    (∀ r : PagedResponse T, loadMore st (Except.ok r) =
      { items := st.items ++ r.content, page := st.page + 1, loading := false,
        error := none, hasMore := !r.last }) ∧
    (∀ msg : String, loadMore st (Except.error msg) =
      { st with loading := false, error := some msg }) := by
  constructor <;> intro x <;> simp [loadMore, hl, hm]

/-- Witness for C6: the pager behavior evaluated on a concrete state, one
fetched page and one fetcher throw. -/
theorem claim_C6_witness :
    loadMore sampleScrollState (Except.ok samplePage) =
      { items := [1, 2, 3, 4], page := 2, loading := false, error := none, hasMore := false } ∧
    loadMore sampleScrollState (Except.error "network down") =
      { items := [1, 2], page := 1, loading := false, error := some "network down",
        hasMore := true } :=
  ⟨(claim_C6_loadMore_behavior sampleScrollState rfl rfl).1 samplePage,
   (claim_C6_loadMore_behavior sampleScrollState rfl rfl).2 "network down"⟩

/-- Claim C7 counterexample: an ok response with JSON content type whose body fails
to parse makes request reject, and the rejection is not an ApiClientError:
the promise of response.json is returned from inside the try block without
await, so its SyntaxError rejection bypasses the catch. This refutes the
part of the claim stating that no exception type other than ApiClientError
escapes request. -/
theorem claim_C7_counterexample :
    isFailure (request "2024-05-02T10:00:00Z" "/jobs" (FetchOutcome.okResponse true false)) = true ∧
    isApiClientFailure
      (request "2024-05-02T10:00:00Z" "/jobs" (FetchOutcome.okResponse true false)) = false :=
  ⟨rfl, rfl⟩

theorem insertDesc_perm (t : JobDto → Int) (a : JobDto) (l : List JobDto) :
    (insertDesc t a l).Perm (a :: l) := by
  induction l with
  | nil => exact List.Perm.refl _
  | cons b l ih =>
    unfold insertDesc
    by_cases h : t b < t a
    · rw [if_pos h]
    · rw [if_neg h]
      exact (ih.cons b).trans (List.Perm.swap a b l)

theorem foldl_insertDesc_perm (t : JobDto → Int) (l : List JobDto) :
    ∀ acc : List JobDto,
      (l.foldl (fun acc a => insertDesc t a acc) acc).Perm (acc ++ l) := by
  induction l with
  | nil =>
    intro acc
    rw [List.foldl_nil, List.append_nil]
  | cons a l ih =>
    intro acc
    rw [List.foldl_cons]
    exact ((ih (insertDesc t a acc)).trans
      (((insertDesc_perm t a acc).append_right l).trans List.perm_middle.symm))

theorem jsSortDesc_perm (t : JobDto → Int) (l : List JobDto) :
    (jsSortDesc t l).Perm l := by
  have h := foldl_insertDesc_perm t l []
  simpa using h

theorem insertDesc_sorted (t : JobDto → Int) (a : JobDto) (l : List JobDto)
    (hl : l.Sorted (fun x y => t y ≤ t x)) :
    (insertDesc t a l).Sorted (fun x y => t y ≤ t x) := by
  induction l with
  | nil => exact List.sorted_singleton a
  | cons b l ih =>
    rw [List.sorted_cons] at hl
    obtain ⟨hb, hl2⟩ := hl
    unfold insertDesc
    by_cases h : t b < t a
    · rw [if_pos h, List.sorted_cons]
      refine ⟨?_, ?_⟩
      · intro x hx
        rcases List.mem_cons.mp hx with rfl | hx2
        · exact le_of_lt h
        · exact le_trans (hb x hx2) (le_of_lt h)
      · rw [List.sorted_cons]
        exact ⟨hb, hl2⟩
    · rw [if_neg h, List.sorted_cons]
      refine ⟨?_, ih hl2⟩
      intro x hx
      rcases List.mem_cons.mp ((insertDesc_perm t a l).mem_iff.mp hx) with rfl | hx2
      · exact le_of_not_lt h
      · exact hb x hx2

theorem foldl_insertDesc_sorted (t : JobDto → Int) (l : List JobDto) :
    ∀ acc : List JobDto, acc.Sorted (fun x y => t y ≤ t x) →
      (l.foldl (fun acc a => insertDesc t a acc) acc).Sorted (fun x y => t y ≤ t x) := by
  induction l with
  | nil => intro acc h; exact h
  | cons a l ih =>
    intro acc h
    rw [List.foldl_cons]
    exact ih _ (insertDesc_sorted t a acc h)

theorem jsSortDesc_sorted (t : JobDto → Int) (l : List JobDto) :
    (jsSortDesc t l).Sorted (fun x y => t y ≤ t x) :=
  foldl_insertDesc_sorted t l [] (List.sorted_nil)

theorem any_key_iff (m : List (String × JobDto)) (k : String) :
    m.any (fun p => p.1 == k) = true ↔ k ∈ m.map (fun p => p.1) := by
  simp [List.any_eq_true, List.mem_map]

theorem mapGet_eq_none_of_not_mem (m : List (String × JobDto)) (k : String)
    (h : k ∉ m.map (fun p => p.1)) : mapGet m k = none := by
  unfold mapGet
  rw [find?_not_found m k (fun ha => h ((any_key_iff m k).mp ha))]
  rfl

theorem mapSet_append_of_not_mem (m : List (String × JobDto)) (k : String) (v : JobDto)
    (h : k ∉ m.map (fun p => p.1)) : mapSet m k v = m ++ [(k, v)] := by
  unfold mapSet
  rw [if_neg (fun ha => h ((any_key_iff m k).mp ha))]

theorem dedup_fold_eq (l : List JobDto) :
    ∀ acc : List (String × JobDto),
      ((acc.map (fun p => p.1)) ++ l.map (fun j => toKey j.id)).Nodup →
      l.foldl dedupStep acc = acc ++ l.map (fun j => (toKey j.id, j)) := by
  induction l with
  | nil =>
    intro acc h
    simp
  | cons j l ih =>
    intro acc h
    simp only [List.map_cons] at h
    have hnd := List.nodup_append.mp h
    have hkey : toKey j.id ∉ acc.map (fun p => p.1) := by
      intro hmem
      exact (hnd.2.2 hmem) (List.mem_cons_self _ _)
    have hstep : dedupStep acc j = acc ++ [(toKey j.id, j)] := by
      unfold dedupStep
      rw [mapGet_eq_none_of_not_mem acc _ hkey, mapSet_append_of_not_mem acc _ j hkey]
    have hnodup2 :
        (((acc ++ [(toKey j.id, j)]).map (fun p => p.1)) ++
          l.map (fun j => toKey j.id)).Nodup := by
      simp only [List.map_append, List.map_cons, List.map_nil]
      simpa [List.append_assoc] using h
    rw [List.foldl_cons, hstep, ih _ hnodup2]
    simp [List.append_assoc]

theorem dedupByKey_eq_self (l : List JobDto)
    (h : (l.map (fun j => toKey j.id)).Nodup) : dedupByKey l = l := by
  unfold dedupByKey
  rw [dedup_fold_eq l [] (by simpa using h)]
  simp only [List.nil_append, List.map_map]
  rw [show ((fun p : String × JobDto => p.2) ∘ fun j : JobDto => (toKey j.id, j)) =
    fun j : JobDto => j from rfl]
  exact List.map_id l

theorem keepLastByKey_eq_self (l : List JobDto)
    (h : (l.map (fun j => toKey j.id)).Nodup) : keepLastByKey l = l := by
  induction l with
  | nil => rfl
  | cons a r ih =>
    simp only [List.map_cons, List.nodup_cons] at h
    have hany : r.any (fun b => toKey b.id == toKey a.id) = false := by
      rw [List.any_eq_false]
      intro b hb hbeq
      exact h.1 (List.mem_map.mpr ⟨b, hb, (eq_of_beq hbeq)⟩)
    show (if r.any (fun b => toKey b.id == toKey a.id) then keepLastByKey r
      else a :: keepLastByKey r) = a :: r
    rw [hany]
    simp only [Bool.false_eq_true, if_false]
    rw [ih h.2]

theorem mapGet_some_key (L : List (String × JobDto)) (k : String) (live : JobDto)
    (hK : ∀ p ∈ L, p.1 = toKey p.2.id) (h : mapGet L k = some live) :
    toKey live.id = k := by
  unfold mapGet at h
  cases hf : L.find? (fun p => p.1 == k) with
  | none =>
    rw [hf] at h
    simp at h
  | some p =>
    rw [hf] at h
    simp at h
    have hmem := List.mem_of_find?_eq_some hf
    have hpred := List.find?_some hf
    have hkk := hK p hmem
    rw [h] at hkk
    rw [← hkk]
    exact eq_of_beq hpred

theorem existingJobsOf_keys (jobs : List JobDto) (L : List (String × JobDto))
    (hK : ∀ p ∈ L, p.1 = toKey p.2.id) :
    (existingJobsOf jobs L).map (fun j => toKey j.id) =
      jobs.map (fun j => toKey j.id) := by
  unfold existingJobsOf
  rw [List.map_map]
  refine List.map_congr_left ?_
  intro job hj
  simp only [Function.comp_apply]
  cases hg : mapGet L (toKey job.id) with
  | none => rfl
  | some live => exact mapGet_some_key L (toKey job.id) live hK hg

theorem newJobsOf_keys (jobs : List JobDto) (L : List (String × JobDto))
    (filters : JobFilter) (dateRange : DateRange)
    (hK : ∀ p ∈ L, p.1 = toKey p.2.id) :
    (newJobsOf jobs L filters dateRange).map (fun j => toKey j.id) =
      (L.filter (fun p =>
        !(jobs.any (fun job => toKey job.id == p.1)) &&
          matchesFilter p.2 filters dateRange)).map (fun p => p.1) := by
  unfold newJobsOf
  rw [List.map_map]
  refine List.map_congr_left ?_
  intro p hp
  simp only [Function.comp_apply]
  exact (hK p (List.mem_of_mem_filter hp)).symm

theorem newJobs_disjoint (jobs : List JobDto) (L : List (String × JobDto))
    (filters : JobFilter) (dateRange : DateRange) :
    ∀ k ∈ (L.filter (fun p =>
        !(jobs.any (fun job => toKey job.id == p.1)) &&
          matchesFilter p.2 filters dateRange)).map (fun p => p.1),
      k ∉ jobs.map (fun j => toKey j.id) := by
  intro k hk hmem
  obtain ⟨p, hp, rfl⟩ := List.mem_map.mp hk
  have hpred := List.of_mem_filter hp
  simp only [Bool.and_eq_true, Bool.not_eq_true'] at hpred
  obtain ⟨j, hj, hjk⟩ := List.mem_map.mp hmem
  exact (List.any_eq_false.mp hpred.1 j hj) (beq_iff_eq.mpr hjk)

theorem not_any_eq_decide (jobs : List JobDto) (k : String) :
    (!(jobs.any (fun job => toKey job.id == k))) =
      decide (∀ j ∈ jobs, ¬ toKey j.id = k) := by
  by_cases h : jobs.any (fun job => toKey job.id == k) = true
  · obtain ⟨j, hj, hb⟩ := List.any_eq_true.mp h
    have hnot : ¬ (∀ j ∈ jobs, ¬ toKey j.id = k) := fun hall => hall j hj (eq_of_beq hb)
    rw [h]
    simp [hnot]
  · have hf : jobs.any (fun job => toKey job.id == k) = false := by simpa using h
    have hall : ∀ j ∈ jobs, ¬ toKey j.id = k := by
      intro j hj heq
      exact h (List.any_eq_true.mpr ⟨j, hj, beq_iff_eq.mpr heq⟩)
    rw [hf]
    simpa using hall

theorem newJobsOf_eq_liveOnlySpec (jobs : List JobDto) (L : List (String × JobDto))
    (filters : JobFilter) (dateRange : DateRange) :
    newJobsOf jobs L filters dateRange = liveOnlySpec jobs L filters dateRange := by
  unfold newJobsOf liveOnlySpec
  congr 1
  refine List.filter_congr ?_
  intro p hp
  rw [not_any_eq_decide]

theorem existingJobsOf_eq_overlay (jobs : List JobDto) (L : List (String × JobDto)) :
    existingJobsOf jobs L = overlayBaseSpec jobs L := rfl

/-- Claim C1: with pairwise distinct keys in the base list, pairwise distinct keys
in the live map, and map keys matching the string key of their value (the
invariant the SSE updater maintains), the displayed list is a permutation of
the reference merge of the specification, and it is sorted by descending
creation time, missing createdAt counting as epoch 0. The reference leaves
the order of jobs with equal creation times unspecified, so equality with
the reference merge is stated as permutation plus sortedness. -/
theorem claim_C1_displayJobs_reconciliation (getTime : String → Int)
    (jobs : List JobDto) (L : List (String × JobDto))
    (filters : JobFilter) (dateRange : DateRange)
    (hB : (jobs.map (fun j => toKey j.id)).Nodup)
    (hL : (L.map (fun p => p.1)).Nodup)
    (hK : ∀ p ∈ L, p.1 = toKey p.2.id) :
    (displayJobs getTime jobs L filters dateRange).Perm
      (refMergeList jobs L filters dateRange) ∧
    (displayJobs getTime jobs L filters dateRange).Sorted
      (fun a b => timeOf getTime b ≤ timeOf getTime a) := by
  have hNewKeys := newJobsOf_keys jobs L filters dateRange hK
  have hExKeys := existingJobsOf_keys jobs L hK
  have hFiltNodup : ((L.filter (fun p =>
      !(jobs.any (fun job => toKey job.id == p.1)) &&
        matchesFilter p.2 filters dateRange)).map (fun p => p.1)).Nodup :=
    List.Nodup.sublist ((List.filter_sublist L).map (fun p => p.1)) hL
  have hAllKeysNodup :
      ((newJobsOf jobs L filters dateRange ++ existingJobsOf jobs L).map
        (fun j => toKey j.id)).Nodup := by
    rw [List.map_append, hNewKeys, hExKeys, List.nodup_append]
    exact ⟨hFiltNodup, hB, fun k hk => newJobs_disjoint jobs L filters dateRange k hk⟩
  have hDedup := dedupByKey_eq_self _ hAllKeysNodup
  have hSpecKeysNodup :
      ((overlayBaseSpec jobs L ++ liveOnlySpec jobs L filters dateRange).map
        (fun j => toKey j.id)).Nodup := by
    rw [← existingJobsOf_eq_overlay, ← newJobsOf_eq_liveOnlySpec,
      List.map_append, hExKeys, hNewKeys, List.nodup_append]
    exact ⟨hB, hFiltNodup,
      fun k hk hk2 => newJobs_disjoint jobs L filters dateRange k hk2 hk⟩
  have hKeepLast := keepLastByKey_eq_self _ hSpecKeysNodup
  constructor
  · unfold displayJobs refMergeList
    rw [hDedup, hKeepLast, ← existingJobsOf_eq_overlay, ← newJobsOf_eq_liveOnlySpec]
    exact (jsSortDesc_perm _ _).trans List.perm_append_comm
  · unfold displayJobs
    rw [hDedup]
    exact jsSortDesc_sorted _ _

/-- Witness for C1: the reconciliation theorem applied to a concrete base
list of two jobs and a live map holding one new job. -/
theorem claim_C1_witness :
    ((displayJobs sampleGetTime [sampleJobA, sampleJobB]
        [("3", sampleJobNoDate)] {} {}).Perm
      (refMergeList [sampleJobA, sampleJobB] [("3", sampleJobNoDate)] {} {})) ∧
    (displayJobs sampleGetTime [sampleJobA, sampleJobB]
        [("3", sampleJobNoDate)] {} {}).Sorted
      (fun a b => timeOf sampleGetTime b ≤ timeOf sampleGetTime a) :=
  claim_C1_displayJobs_reconciliation sampleGetTime [sampleJobA, sampleJobB]
    [("3", sampleJobNoDate)] {} {} (by decide) (by decide) (by decide)

/-- Claim C7 amended: every non-2xx HTTP response and every fetch rejection yields
an ApiClientError carrying a complete ApiError record, with the default
record synthesized from the HTTP status when the error body is not JSON and
with status 0 for a network failure; but an ok JSON response whose body
fails to parse escapes as the bare JSON syntax rejection instead. -/
theorem claim_C7_amended_error_wrapping (now endpoint msg statusText : String)
    (status : Nat) (body : ApiError) :
    request now endpoint (FetchOutcome.networkFailure msg) =
      Except.error (RequestError.apiClientError
        { timestamp := now, status := 0, error := "Network Error", message := msg,
          path := endpoint }) ∧
    request now endpoint (FetchOutcome.errorResponse status statusText (some body)) =
      Except.error (RequestError.apiClientError body) ∧
    request now endpoint (FetchOutcome.errorResponse status statusText none) =
      Except.error (RequestError.apiClientError
        { timestamp := now, status := status, error := statusText,
          message := "HTTP " ++ toString status ++ ": " ++ statusText, path := endpoint }) ∧
    request now endpoint (FetchOutcome.okResponse true false) =
      Except.error RequestError.jsonSyntaxFailure :=
  ⟨rfl, rfl, rfl, rfl⟩

end SatFrontend
